import Mathlib

/-!
Verification of the EER computation and model-evaluation harness of the
online-signature-verification notebooks.

The reasoned core of the repository is the function `compute_eer`
(identical in notebooks 3, 4 and 5):

  def compute_eer(y_true, y_score):
      fpr, tpr, thresholds = roc_curve(y_true, y_score)
      fnr = 1 - tpr
      idx = np.nanargmin(np.abs(fpr - fnr))
      eer = (fpr[idx] + fnr[idx]) / 2
      return eer, thresholds[idx]

together with the multi-model evaluation loop of notebook 3.  Labels are
booleans (`true` encodes the genuine class 1, `false` the forged class 0)
and scores are rationals, standing in for the real-valued probability
scores of the code with decidable arithmetic.
-/

/-- Maximum of a list of rationals (0 on the empty list, never used there). -/
def maxOf : List ℚ → ℚ
  | [] => 0
  | [x] => x
  | x :: y :: xs => max x (maxOf (y :: xs))

/-- Minimum of a list of rationals (0 on the empty list, never used there). -/
def minOf : List ℚ → ℚ
  | [] => 0
  | [x] => x
  | x :: y :: xs => min x (minOf (y :: xs))

/-- Index of the first occurrence of the minimum of a list, mirroring
`np.nanargmin` on NaN-free input: the least index attaining the minimum. -/
def argminIdx : List ℚ → Nat
  | [] => 0
  | [_] => 0
  | x :: y :: xs => if x ≤ minOf (y :: xs) then 0 else argminIdx (y :: xs) + 1

theorem minOf_le (l : List ℚ) : ∀ x ∈ l, minOf l ≤ x := by
  induction l with
  | nil => simp
  | cons a t ih =>
    intro x hx
    cases t with
    | nil => simp at hx; simp [minOf, hx]
    | cons b t2 =>
      rcases List.mem_cons.1 hx with h | h
      · simp [minOf, h]
      · exact le_trans (by simp [minOf]) (ih x h)

theorem le_maxOf (l : List ℚ) : ∀ x ∈ l, x ≤ maxOf l := by
  induction l with
  | nil => simp
  | cons a t ih =>
    intro x hx
    cases t with
    | nil => simp at hx; simp [maxOf, hx]
    | cons b t2 =>
      rcases List.mem_cons.1 hx with h | h
      · simp [maxOf, h]
      · exact le_trans (ih x h) (by simp [maxOf])

theorem minOf_mem (l : List ℚ) (h : l ≠ []) : minOf l ∈ l := by
  induction l with
  | nil => exact absurd rfl h
  | cons a t ih =>
    cases t with
    | nil => simp [minOf]
    | cons b t2 =>
      rcases le_total a (minOf (b :: t2)) with hle | hle
      · simp [minOf, min_eq_left hle]
      · have := ih (by simp)
        simp only [minOf, min_eq_right hle]
        exact List.mem_cons_of_mem a this

theorem maxOf_mem (l : List ℚ) (h : l ≠ []) : maxOf l ∈ l := by
  induction l with
  | nil => exact absurd rfl h
  | cons a t ih =>
    cases t with
    | nil => simp [maxOf]
    | cons b t2 =>
      rcases le_total (maxOf (b :: t2)) a with hle | hle
      · simp [maxOf, max_eq_left hle]
      · have := ih (by simp)
        simp only [maxOf, max_eq_right hle]
        exact List.mem_cons_of_mem a this

theorem argminIdx_lt_length (l : List ℚ) (h : l ≠ []) : argminIdx l < l.length := by
  induction l with
  | nil => exact absurd rfl h
  | cons a t ih =>
    cases t with
    | nil => simp [argminIdx]
    | cons b t2 =>
      by_cases hle : a ≤ minOf (b :: t2)
      · simp [argminIdx, hle]
      · have h2 := ih (by simp)
        simp only [List.length_cons] at h2 ⊢
        simp only [argminIdx, if_neg hle]
        omega

theorem getD_argminIdx (l : List ℚ) (h : l ≠ []) : l.getD (argminIdx l) 0 = minOf l := by
  induction l with
  | nil => exact absurd rfl h
  | cons a t ih =>
    cases t with
    | nil => simp [argminIdx, minOf]
    | cons b t2 =>
      by_cases hle : a ≤ minOf (b :: t2)
      · have : minOf (a :: b :: t2) = a := min_eq_left hle
        simp [argminIdx, hle, this]
      · have hmin : minOf (a :: b :: t2) = minOf (b :: t2) :=
          min_eq_right (le_of_not_le hle)
        have h2 := ih (by simp)
        simp only [argminIdx, if_neg hle, List.getD_cons_succ, hmin]
        exact h2

theorem argminIdx_first (l : List ℚ) :
    ∀ j < argminIdx l, minOf l < l.getD j 0 := by
  induction l with
  | nil => simp [argminIdx]
  | cons a t ih =>
    cases t with
    | nil => simp [argminIdx]
    | cons b t2 =>
      intro j hj
      by_cases hle : a ≤ minOf (b :: t2)
      · simp [argminIdx, hle] at hj
      · simp only [argminIdx, if_neg hle] at hj
        have hmin : minOf (a :: b :: t2) = minOf (b :: t2) :=
          min_eq_right (le_of_not_le hle)
        cases j with
        | zero =>
          simp only [List.getD_cons_zero, hmin]
          exact lt_of_not_le hle
        | succ k =>
          have hk : k < argminIdx (b :: t2) := by omega
          simp only [List.getD_cons_succ, hmin]
          exact ih k hk

/-- Number of genuine (label 1) examples, `P` in ROC terminology. -/
def positives (y_true : List Bool) : Nat := y_true.countP (fun b => b)

/-- Number of forged (label 0) examples, `N` in ROC terminology. -/
def negatives (y_true : List Bool) : Nat := y_true.countP (fun b => !b)

/-- True positives at threshold `t`: genuine examples whose score is at
least `t` (a prediction is positive iff score is at or above the threshold). -/
def tpCount (y_true : List Bool) (y_score : List ℚ) (t : ℚ) : Nat :=
  (y_true.zip y_score).countP (fun p => p.1 && decide (t ≤ p.2))

/-- False positives at threshold `t`: forged examples whose score is at
least `t`. -/
def fpCount (y_true : List Bool) (y_score : List ℚ) (t : ℚ) : Nat :=
  (y_true.zip y_score).countP (fun p => !p.1 && decide (t ≤ p.2))

/-- ROCPoint of the spec data model: false-positive rate, true-positive
rate and the decision threshold that produced them. -/
structure ROCPoint where
  fpr : ℚ
  tpr : ℚ
  threshold : ℚ
deriving DecidableEq, Repr

/-- ROC rates at one candidate threshold. -/
def pointAt (y_true : List Bool) (y_score : List ℚ) (t : ℚ) : ROCPoint :=
  ⟨(fpCount y_true y_score t : ℚ) / (negatives y_true : ℚ),
   (tpCount y_true y_score t : ℚ) / (positives y_true : ℚ), t⟩

/-- Distinct score values sorted in descending order: the interior
candidate thresholds of the ROC sweep. -/
def sortedThresholds (y_score : List ℚ) : List ℚ :=
  List.insertionSort (· ≥ ·) y_score.dedup

/-- Modelled from the spec: the candidate-threshold list of the ROC sweep
performed by the library routine `roc_curve`, whose source is not part of
this repository.  Per the spec, every distinct value of `y_score` is a
candidate threshold, plus one boundary threshold above the maximum score
(nothing flagged positive) and one below the minimum score (everything
flagged positive), all ordered by descending threshold. -/
def thresholdList (y_score : List ℚ) : List ℚ :=
  (maxOf y_score + 1) :: (sortedThresholds y_score ++ [minOf y_score - 1])

/-- Modelled from the spec: the ROC curve as swept by the library routine
`roc_curve` (source not in this repository) — one `ROCPoint` per candidate
threshold, in descending-threshold order. -/
def roc_curve (y_true : List Bool) (y_score : List ℚ) : List ROCPoint :=
  (thresholdList y_score).map (pointAt y_true y_score)

/-- Absolute difference between false-positive rate and false-negative
rate of an ROC point, the quantity minimized by `compute_eer`. -/
def pointDiff (p : ROCPoint) : ℚ := |p.fpr - (1 - p.tpr)|

/-- Errors of the evaluator, named after the taxonomy of the spec.
`DegenerateLabelSet` models the ValueError that `np.nanargmin` raises in
the code when a single-class label vector makes every rate NaN. -/
inductive EvalError where
  | DegenerateLabelSet
  | MissingPredictProba
deriving DecidableEq, Repr

/-- Result record of `compute_eer`. -/
structure EERResult where
  eer : ℚ
  threshold : ℚ
deriving DecidableEq, Repr

/-- Embedding of the source function `compute_eer` (notebook 3 cell 16,
identical in notebooks 4 and 5): build the ROC curve, set fnr = 1 - tpr,
take the first index minimizing |fpr - fnr|, and return the average of
fpr and fnr there together with that index's threshold.  The single-class
failure, which in the code surfaces as NaN rates followed by a ValueError
from `np.nanargmin`, is made explicit as a `DegenerateLabelSet` error. -/
def compute_eer (y_true : List Bool) (y_score : List ℚ) : Except EvalError EERResult :=
  if positives y_true = 0 ∨ negatives y_true = 0 then
    Except.error EvalError.DegenerateLabelSet
  else
    let pts := roc_curve y_true y_score
    let fpr := pts.map ROCPoint.fpr
    let tpr := pts.map ROCPoint.tpr
    let fnr := tpr.map (fun v => 1 - v)
    let idx := argminIdx ((fpr.zip fnr).map (fun p => |p.1 - p.2|))
    Except.ok ⟨(fpr.getD idx 0 + fnr.getD idx 0) / 2, (pts.map ROCPoint.threshold).getD idx 0⟩

/-- Index selected by `compute_eer`: first minimizer of |fpr - fnr|. -/
def eerIdx (y_true : List Bool) (y_score : List ℚ) : Nat :=
  argminIdx ((roc_curve y_true y_score).map pointDiff)

theorem diffs_eq_map_pointDiff (y_true : List Bool) (y_score : List ℚ) :
    ((((roc_curve y_true y_score).map ROCPoint.fpr).zip
        (((roc_curve y_true y_score).map ROCPoint.tpr).map (fun v => 1 - v))).map
      (fun p => |p.1 - p.2|)) = (roc_curve y_true y_score).map pointDiff := by
  rw [List.map_map, List.zip_map', List.map_map]
  rfl

theorem compute_eer_ok_form (y_true : List Bool) (y_score : List ℚ)
    (hP : positives y_true ≠ 0) (hN : negatives y_true ≠ 0) :
    compute_eer y_true y_score =
      Except.ok
        ⟨(((roc_curve y_true y_score).map ROCPoint.fpr).getD (eerIdx y_true y_score) 0 +
            (((roc_curve y_true y_score).map ROCPoint.tpr).map (fun v => 1 - v)).getD
              (eerIdx y_true y_score) 0) / 2,
          ((roc_curve y_true y_score).map ROCPoint.threshold).getD (eerIdx y_true y_score) 0⟩ := by
  simp only [compute_eer, eerIdx, diffs_eq_map_pointDiff]
  rw [if_neg (by tauto)]

theorem countP_zip_fst (y_true : List Bool) (y_score : List ℚ) (p : Bool → Bool)
    (hlen : y_true.length = y_score.length) :
    (y_true.zip y_score).countP (fun q => p q.1) = y_true.countP p := by
  have hmap : (y_true.zip y_score).map Prod.fst = y_true :=
    List.map_fst_zip _ _ (le_of_eq hlen)
  conv_rhs => rw [← hmap, List.countP_map]
  rfl

theorem tpCount_mono (y_true : List Bool) (y_score : List ℚ) {t1 t2 : ℚ} (h : t1 ≤ t2) :
    tpCount y_true y_score t2 ≤ tpCount y_true y_score t1 := by
  apply List.countP_mono_left
  intro x _ hx
  simp only [Bool.and_eq_true, decide_eq_true_eq] at hx ⊢
  exact ⟨hx.1, le_trans h hx.2⟩

theorem fpCount_mono (y_true : List Bool) (y_score : List ℚ) {t1 t2 : ℚ} (h : t1 ≤ t2) :
    fpCount y_true y_score t2 ≤ fpCount y_true y_score t1 := by
  apply List.countP_mono_left
  intro x _ hx
  simp only [Bool.and_eq_true, decide_eq_true_eq] at hx ⊢
  exact ⟨hx.1, le_trans h hx.2⟩

theorem tpCount_eq_zero (y_true : List Bool) (y_score : List ℚ) {t : ℚ}
    (h : ∀ x ∈ y_score, x < t) : tpCount y_true y_score t = 0 := by
  apply List.countP_eq_zero.2
  intro a ha
  have h2 := (List.of_mem_zip ha).2
  simp [not_le.2 (h _ h2)]

theorem fpCount_eq_zero (y_true : List Bool) (y_score : List ℚ) {t : ℚ}
    (h : ∀ x ∈ y_score, x < t) : fpCount y_true y_score t = 0 := by
  apply List.countP_eq_zero.2
  intro a ha
  have h2 := (List.of_mem_zip ha).2
  simp [not_le.2 (h _ h2)]

theorem tpCount_eq_positives (y_true : List Bool) (y_score : List ℚ) {t : ℚ}
    (hlen : y_true.length = y_score.length)
    (h : ∀ x ∈ y_score, t ≤ x) : tpCount y_true y_score t = positives y_true := by
  rw [positives, ← countP_zip_fst y_true y_score (fun b => b) hlen]
  apply List.countP_congr
  intro a ha
  have h2 := (List.of_mem_zip ha).2
  simp [h _ h2]

theorem fpCount_eq_negatives (y_true : List Bool) (y_score : List ℚ) {t : ℚ}
    (hlen : y_true.length = y_score.length)
    (h : ∀ x ∈ y_score, t ≤ x) : fpCount y_true y_score t = negatives y_true := by
  rw [negatives, ← countP_zip_fst y_true y_score (fun b => !b) hlen]
  apply List.countP_congr
  intro a ha
  have h2 := (List.of_mem_zip ha).2
  simp [h _ h2]

theorem tpCount_le_positives (y_true : List Bool) (y_score : List ℚ) (t : ℚ)
    (hlen : y_true.length = y_score.length) :
    tpCount y_true y_score t ≤ positives y_true := by
  rw [positives, ← countP_zip_fst y_true y_score (fun b => b) hlen]
  apply List.countP_mono_left
  intro x _ hx
  simp only [Bool.and_eq_true] at hx
  exact hx.1

theorem fpCount_le_negatives (y_true : List Bool) (y_score : List ℚ) (t : ℚ)
    (hlen : y_true.length = y_score.length) :
    fpCount y_true y_score t ≤ negatives y_true := by
  rw [negatives, ← countP_zip_fst y_true y_score (fun b => !b) hlen]
  apply List.countP_mono_left
  intro x _ hx
  simp only [Bool.and_eq_true] at hx
  exact hx.1

theorem pointAt_fpr_nonneg (y_true : List Bool) (y_score : List ℚ) (t : ℚ) :
    0 ≤ (pointAt y_true y_score t).fpr :=
  div_nonneg (Nat.cast_nonneg _) (Nat.cast_nonneg _)

theorem pointAt_tpr_nonneg (y_true : List Bool) (y_score : List ℚ) (t : ℚ) :
    0 ≤ (pointAt y_true y_score t).tpr :=
  div_nonneg (Nat.cast_nonneg _) (Nat.cast_nonneg _)

theorem pointAt_fpr_le_one (y_true : List Bool) (y_score : List ℚ) (t : ℚ)
    (hlen : y_true.length = y_score.length) (hN : negatives y_true ≠ 0) :
    (pointAt y_true y_score t).fpr ≤ 1 := by
  have hNpos : (0 : ℚ) < (negatives y_true : ℚ) := by
    exact_mod_cast Nat.pos_of_ne_zero hN
  exact (div_le_one hNpos).2 (by exact_mod_cast fpCount_le_negatives y_true y_score t hlen)

theorem pointAt_tpr_le_one (y_true : List Bool) (y_score : List ℚ) (t : ℚ)
    (hlen : y_true.length = y_score.length) (hP : positives y_true ≠ 0) :
    (pointAt y_true y_score t).tpr ≤ 1 := by
  have hPpos : (0 : ℚ) < (positives y_true : ℚ) := by
    exact_mod_cast Nat.pos_of_ne_zero hP
  exact (div_le_one hPpos).2 (by exact_mod_cast tpCount_le_positives y_true y_score t hlen)

theorem roc_curve_ne_nil (y_true : List Bool) (y_score : List ℚ) :
    roc_curve y_true y_score ≠ [] := by
  simp [roc_curve, thresholdList]

theorem eerIdx_lt_length (y_true : List Bool) (y_score : List ℚ) :
    eerIdx y_true y_score < (roc_curve y_true y_score).length := by
  have h := argminIdx_lt_length ((roc_curve y_true y_score).map pointDiff)
    (by simp [roc_curve, thresholdList])
  simpa [eerIdx] using h

/-- Default ROC point used only as the out-of-range fallback of `List.getD`. -/
def rocDefault : ROCPoint := ⟨0, 0, 0⟩

theorem getD_map_point {f : ROCPoint → ℚ} {pts : List ROCPoint} {i : Nat}
    (h : i < pts.length) :
    (pts.map f).getD i 0 = f (pts.getD i rocDefault) := by
  rw [List.getD_eq_getElem _ _ (by simpa using h), List.getElem_map,
    List.getD_eq_getElem _ _ h]

theorem eerIdx_is_min (y_true : List Bool) (y_score : List ℚ) :
    ∀ j < (roc_curve y_true y_score).length,
      pointDiff ((roc_curve y_true y_score).getD (eerIdx y_true y_score) rocDefault) ≤
        pointDiff ((roc_curve y_true y_score).getD j rocDefault) := by
  intro j hj
  have hne : (roc_curve y_true y_score).map pointDiff ≠ [] := by
    simp [roc_curve, thresholdList]
  have hidx := eerIdx_lt_length y_true y_score
  have h1 : ((roc_curve y_true y_score).map pointDiff).getD (eerIdx y_true y_score) 0 =
      minOf ((roc_curve y_true y_score).map pointDiff) := getD_argminIdx _ hne
  rw [getD_map_point hidx] at h1
  have hmem : ((roc_curve y_true y_score).map pointDiff).getD j 0 ∈
      (roc_curve y_true y_score).map pointDiff := by
    rw [List.getD_eq_getElem _ _ (by simpa using hj)]
    exact List.getElem_mem _
  have h2 := minOf_le _ _ hmem
  rw [getD_map_point hj] at h2
  rw [h1]
  exact h2

theorem eerIdx_is_first (y_true : List Bool) (y_score : List ℚ) :
    ∀ j < eerIdx y_true y_score,
      pointDiff ((roc_curve y_true y_score).getD (eerIdx y_true y_score) rocDefault) <
        pointDiff ((roc_curve y_true y_score).getD j rocDefault) := by
  intro j hj
  have hne : (roc_curve y_true y_score).map pointDiff ≠ [] := by
    simp [roc_curve, thresholdList]
  have hidx := eerIdx_lt_length y_true y_score
  have hjlen : j < (roc_curve y_true y_score).length := lt_trans hj hidx
  have h1 : ((roc_curve y_true y_score).map pointDiff).getD (eerIdx y_true y_score) 0 =
      minOf ((roc_curve y_true y_score).map pointDiff) := getD_argminIdx _ hne
  rw [getD_map_point hidx] at h1
  have h2 := argminIdx_first ((roc_curve y_true y_score).map pointDiff) j hj
  rw [getD_map_point hjlen] at h2
  rw [h1]
  exact h2

theorem compute_eer_ok_point (y_true : List Bool) (y_score : List ℚ)
    (hP : positives y_true ≠ 0) (hN : negatives y_true ≠ 0) :
    compute_eer y_true y_score = Except.ok
      ⟨(((roc_curve y_true y_score).getD (eerIdx y_true y_score) rocDefault).fpr +
          (1 - ((roc_curve y_true y_score).getD (eerIdx y_true y_score) rocDefault).tpr)) / 2,
        ((roc_curve y_true y_score).getD (eerIdx y_true y_score) rocDefault).threshold⟩ := by
  have hidx := eerIdx_lt_length y_true y_score
  rw [compute_eer_ok_form y_true y_score hP hN]
  rw [List.map_map]
  rw [getD_map_point hidx, getD_map_point hidx, getD_map_point hidx]
  rfl

/-- C1: for every input with both classes present, `compute_eer` selects
the ROC point index minimizing |fpr − fnr| (with fnr = 1 − tpr), ties
broken by first occurrence in descending-threshold order, and returns the
plain average of fpr and fnr at that index together with that index's
threshold — a value taken from one single ROC point, with no linear
interpolation between adjacent points. -/
theorem compute_eer_selects_first_argmin (y_true : List Bool) (y_score : List ℚ)
    (hP : positives y_true ≠ 0) (hN : negatives y_true ≠ 0) :
    ∃ idx, idx < (roc_curve y_true y_score).length ∧
      (∀ j < (roc_curve y_true y_score).length,
        pointDiff ((roc_curve y_true y_score).getD idx rocDefault) ≤
          pointDiff ((roc_curve y_true y_score).getD j rocDefault)) ∧
      (∀ j < idx,
        pointDiff ((roc_curve y_true y_score).getD idx rocDefault) <
          pointDiff ((roc_curve y_true y_score).getD j rocDefault)) ∧
      compute_eer y_true y_score = Except.ok
        ⟨(((roc_curve y_true y_score).getD idx rocDefault).fpr +
            (1 - ((roc_curve y_true y_score).getD idx rocDefault).tpr)) / 2,
          ((roc_curve y_true y_score).getD idx rocDefault).threshold⟩ :=
  ⟨eerIdx y_true y_score, eerIdx_lt_length y_true y_score,
    eerIdx_is_min y_true y_score, eerIdx_is_first y_true y_score,
    compute_eer_ok_point y_true y_score hP hN⟩

/-- Witness for C1 at the concrete input y_true = [1, 0], y_score = [1, 0]. -/
theorem compute_eer_selects_first_argmin_witness :
    positives [true, false] ≠ 0 ∧ negatives [true, false] ≠ 0 ∧
      (∃ idx, idx < (roc_curve [true, false] [(1 : ℚ), 0]).length ∧
        (∀ j < (roc_curve [true, false] [(1 : ℚ), 0]).length,
          pointDiff ((roc_curve [true, false] [(1 : ℚ), 0]).getD idx rocDefault) ≤
            pointDiff ((roc_curve [true, false] [(1 : ℚ), 0]).getD j rocDefault)) ∧
        (∀ j < idx,
          pointDiff ((roc_curve [true, false] [(1 : ℚ), 0]).getD idx rocDefault) <
            pointDiff ((roc_curve [true, false] [(1 : ℚ), 0]).getD j rocDefault)) ∧
        compute_eer [true, false] [(1 : ℚ), 0] = Except.ok
          ⟨(((roc_curve [true, false] [(1 : ℚ), 0]).getD idx rocDefault).fpr +
              (1 - ((roc_curve [true, false] [(1 : ℚ), 0]).getD idx rocDefault).tpr)) / 2,
            ((roc_curve [true, false] [(1 : ℚ), 0]).getD idx rocDefault).threshold⟩) :=
  ⟨by decide, by decide,
    compute_eer_selects_first_argmin [true, false] [(1 : ℚ), 0] (by decide) (by decide)⟩

theorem eerPoint_mem (y_true : List Bool) (y_score : List ℚ) :
    (roc_curve y_true y_score).getD (eerIdx y_true y_score) rocDefault ∈
      roc_curve y_true y_score := by
  rw [List.getD_eq_getElem _ _ (eerIdx_lt_length y_true y_score)]
  exact List.getElem_mem _

theorem mem_roc_curve_iff (y_true : List Bool) (y_score : List ℚ) (p : ROCPoint) :
    p ∈ roc_curve y_true y_score ↔
      ∃ t ∈ thresholdList y_score, pointAt y_true y_score t = p := by
  simp [roc_curve]

/-- C3 counterexample: on the anti-correlated input y_true = [1, 0],
y_score = [1, 9] (the genuine example scored below the forged one),
`compute_eer` returns eer = 1, outside the interval [0, 0.5] asserted by
the claim. -/
theorem eer_interval_counterexample :
    ∃ r, compute_eer [true, false] [(1 : ℚ), 9] = Except.ok r ∧ 1 / 2 < r.eer := by
  refine ⟨⟨1, 9⟩, ?_, by norm_num⟩
  norm_num [compute_eer, positives, negatives, roc_curve, thresholdList, sortedThresholds,
    maxOf, minOf, List.insertionSort, List.orderedInsert, List.dedup, List.pwFilter,
    pointAt, tpCount, fpCount, argminIdx, List.countP, List.countP.go,
    List.zip, List.zipWith, List.getD]

/-- C3 amended: for every valid input (equal-length sequences, both
classes present) the eer component of the result lies in [0, 1]; the
claimed upper bound 0.5 fails for classifiers scoring worse than chance. -/
theorem eer_in_unit_interval (y_true : List Bool) (y_score : List ℚ)
    (hlen : y_true.length = y_score.length)
    (hP : positives y_true ≠ 0) (hN : negatives y_true ≠ 0) :
    ∀ r, compute_eer y_true y_score = Except.ok r → 0 ≤ r.eer ∧ r.eer ≤ 1 := by
  intro r hr
  rw [compute_eer_ok_point y_true y_score hP hN] at hr
  have hq := eerPoint_mem y_true y_score
  rw [mem_roc_curve_iff] at hq
  obtain ⟨t, _, ht⟩ := hq
  have heer : r.eer =
      (((roc_curve y_true y_score).getD (eerIdx y_true y_score) rocDefault).fpr +
        (1 - ((roc_curve y_true y_score).getD (eerIdx y_true y_score) rocDefault).tpr)) / 2 := by
    cases hr
    rfl
  rw [← ht] at heer
  have h1 := pointAt_fpr_nonneg y_true y_score t
  have h2 := pointAt_fpr_le_one y_true y_score t hlen hN
  have h3 := pointAt_tpr_nonneg y_true y_score t
  have h4 := pointAt_tpr_le_one y_true y_score t hlen hP
  constructor
  · rw [heer]
    have : (0 : ℚ) ≤ 1 - (pointAt y_true y_score t).tpr := by linarith
    positivity
  · rw [heer]
    linarith

/-- Witness for the amended C3 at the concrete input [1, 0] with scores [1, 9]. -/
theorem eer_in_unit_interval_witness :
    ([true, false] : List Bool).length = ([(1 : ℚ), 9] : List ℚ).length ∧
      positives [true, false] ≠ 0 ∧ negatives [true, false] ≠ 0 ∧
      (∀ r, compute_eer [true, false] [(1 : ℚ), 9] = Except.ok r →
        0 ≤ r.eer ∧ r.eer ≤ 1) :=
  ⟨by decide, by decide, by decide,
    eer_in_unit_interval [true, false] [(1 : ℚ), 9] (by decide) (by decide) (by decide)⟩

theorem compute_eer_error_iff (y_true : List Bool) (y_score : List ℚ) :
    (∃ e, compute_eer y_true y_score = Except.error e) ↔
      (positives y_true = 0 ∨ negatives y_true = 0) := by
  by_cases h : positives y_true = 0 ∨ negatives y_true = 0
  · simp [compute_eer, h]
  · simp [compute_eer, h]

theorem positives_eq_zero_iff (y_true : List Bool) :
    positives y_true = 0 ↔ ∀ b ∈ y_true, b = false := by
  rw [positives, List.countP_eq_zero]
  constructor
  · intro h b hb
    have := h b hb
    simpa using this
  · intro h b hb
    simpa using h b hb

theorem negatives_eq_zero_iff (y_true : List Bool) :
    negatives y_true = 0 ↔ ∀ b ∈ y_true, b = true := by
  rw [negatives, List.countP_eq_zero]
  constructor
  · intro h b hb
    have := h b hb
    simpa using this
  · intro h b hb
    simp [h b hb]

/-- C6: given equal-length non-empty inputs, `compute_eer` fails — with
the `DegenerateLabelSet` error and no other — exactly when all labels are
identical, and with both classes present it returns a result without
error. -/
theorem compute_eer_error_iff_degenerate (y_true : List Bool) (y_score : List ℚ)
    (_hlen : y_true.length = y_score.length) (_hne : y_true ≠ []) :
    ((∃ e, compute_eer y_true y_score = Except.error e) ↔
      ((∀ b ∈ y_true, b = true) ∨ (∀ b ∈ y_true, b = false))) ∧
      (∀ e, compute_eer y_true y_score = Except.error e →
        e = EvalError.DegenerateLabelSet) ∧
      (¬((∀ b ∈ y_true, b = true) ∨ (∀ b ∈ y_true, b = false)) →
        ∃ r, compute_eer y_true y_score = Except.ok r) := by
  have hiff : (∃ e, compute_eer y_true y_score = Except.error e) ↔
      ((∀ b ∈ y_true, b = true) ∨ (∀ b ∈ y_true, b = false)) := by
    rw [compute_eer_error_iff, positives_eq_zero_iff, negatives_eq_zero_iff]
    tauto
  refine ⟨hiff, ?_, ?_⟩
  · intro e he
    have hcond : positives y_true = 0 ∨ negatives y_true = 0 := by
      rw [← compute_eer_error_iff y_true y_score]
      exact ⟨e, he⟩
    have := he
    simp only [compute_eer, if_pos hcond, Except.error.injEq] at this
    exact this.symm
  · intro hnot
    have hno : ¬∃ e, compute_eer y_true y_score = Except.error e := by
      rw [hiff]
      exact hnot
    cases hok : compute_eer y_true y_score with
    | ok r => exact ⟨r, rfl⟩
    | error e => exact absurd ⟨e, hok⟩ hno

/-- Witness for C6 at the degenerate input [1, 1] (only genuine labels). -/
theorem compute_eer_error_iff_degenerate_witness :
    ([true, true] : List Bool).length = ([(1 : ℚ), 2] : List ℚ).length ∧
      ([true, true] : List Bool) ≠ [] ∧
      (((∃ e, compute_eer [true, true] [(1 : ℚ), 2] = Except.error e) ↔
        ((∀ b ∈ [true, true], b = true) ∨ (∀ b ∈ [true, true], b = false))) ∧
        (∀ e, compute_eer [true, true] [(1 : ℚ), 2] = Except.error e →
          e = EvalError.DegenerateLabelSet) ∧
        (¬((∀ b ∈ [true, true], b = true) ∨ (∀ b ∈ [true, true], b = false)) →
          ∃ r, compute_eer [true, true] [(1 : ℚ), 2] = Except.ok r)) :=
  ⟨by decide, by decide,
    compute_eer_error_iff_degenerate [true, true] [(1 : ℚ), 2] (by decide) (by decide)⟩

theorem dedup_const {y_score : List ℚ} {s : ℚ} (hne : y_score ≠ [])
    (h : ∀ x ∈ y_score, x = s) : y_score.dedup = [s] := by
  induction y_score with
  | nil => exact absurd rfl hne
  | cons a t ih =>
    have ha : a = s := h a (by simp)
    cases t with
    | nil => simp [List.dedup, ha]
    | cons b t2 =>
      have hd : (b :: t2).dedup = [s] := ih (by simp) (fun x hx => h x (List.mem_cons_of_mem a hx))
      have hmem : a ∈ b :: t2 := by
        have hb : b = s := h b (by simp)
        rw [ha, ← hb]
        simp
      rw [List.dedup_cons_of_mem hmem, hd]

theorem maxOf_const {y_score : List ℚ} {s : ℚ} (hne : y_score ≠ [])
    (h : ∀ x ∈ y_score, x = s) : maxOf y_score = s :=
  h _ (maxOf_mem y_score hne)

theorem minOf_const {y_score : List ℚ} {s : ℚ} (hne : y_score ≠ [])
    (h : ∀ x ∈ y_score, x = s) : minOf y_score = s :=
  h _ (minOf_mem y_score hne)

theorem pointAt_top {y_true : List Bool} {y_score : List ℚ} {t : ℚ}
    (h : ∀ x ∈ y_score, x < t) :
    pointAt y_true y_score t = ⟨0, 0, t⟩ := by
  simp [pointAt, tpCount_eq_zero y_true y_score h, fpCount_eq_zero y_true y_score h]

theorem pointAt_bot {y_true : List Bool} {y_score : List ℚ} {t : ℚ}
    (hlen : y_true.length = y_score.length)
    (hP : positives y_true ≠ 0) (hN : negatives y_true ≠ 0)
    (h : ∀ x ∈ y_score, t ≤ x) :
    pointAt y_true y_score t = ⟨1, 1, t⟩ := by
  have h1 : ((negatives y_true : ℚ)) ≠ 0 := Nat.cast_ne_zero.2 hN
  have h2 : ((positives y_true : ℚ)) ≠ 0 := Nat.cast_ne_zero.2 hP
  simp [pointAt, tpCount_eq_positives y_true y_score hlen h,
    fpCount_eq_negatives y_true y_score hlen h, div_self h1, div_self h2]

theorem roc_curve_const {y_true : List Bool} {y_score : List ℚ} {s : ℚ}
    (hlen : y_true.length = y_score.length) (hne : y_score ≠ [])
    (hP : positives y_true ≠ 0) (hN : negatives y_true ≠ 0)
    (h : ∀ x ∈ y_score, x = s) :
    roc_curve y_true y_score = [⟨0, 0, s + 1⟩, ⟨1, 1, s⟩, ⟨1, 1, s - 1⟩] := by
  have hmax : maxOf y_score = s := maxOf_const hne h
  have hmin : minOf y_score = s := minOf_const hne h
  have hthr : thresholdList y_score = [s + 1, s, s - 1] := by
    rw [thresholdList, sortedThresholds, dedup_const hne h, hmax, hmin]
    rfl
  have hp1 : pointAt y_true y_score (s + 1) = ⟨0, 0, s + 1⟩ :=
    pointAt_top (fun x hx => by rw [h x hx]; linarith)
  have hp2 : pointAt y_true y_score s = ⟨1, 1, s⟩ :=
    pointAt_bot hlen hP hN (fun x hx => by rw [h x hx])
  have hp3 : pointAt y_true y_score (s - 1) = ⟨1, 1, s - 1⟩ :=
    pointAt_bot hlen hP hN (fun x hx => by rw [h x hx]; linarith)
  rw [roc_curve, hthr]
  simp [hp1, hp2, hp3]

theorem eerIdx_const {y_true : List Bool} {y_score : List ℚ} {s : ℚ}
    (hlen : y_true.length = y_score.length) (hne : y_score ≠ [])
    (hP : positives y_true ≠ 0) (hN : negatives y_true ≠ 0)
    (h : ∀ x ∈ y_score, x = s) :
    eerIdx y_true y_score = 0 := by
  rw [eerIdx, roc_curve_const hlen hne hP hN h]
  norm_num [pointDiff, argminIdx, minOf]

theorem compute_eer_const {y_true : List Bool} {y_score : List ℚ} {s : ℚ}
    (hlen : y_true.length = y_score.length) (hne : y_score ≠ [])
    (hP : positives y_true ≠ 0) (hN : negatives y_true ≠ 0)
    (h : ∀ x ∈ y_score, x = s) :
    compute_eer y_true y_score = Except.ok ⟨1 / 2, s + 1⟩ := by
  rw [compute_eer_ok_point y_true y_score hP hN, eerIdx_const hlen hne hP hN h,
    roc_curve_const hlen hne hP hN h]
  norm_num [List.getD]

/-- C7 counterexample: on y_true = [1, 0], y_score = [5, 5] (all scores
identical, both classes present), the ROC point selected by compute_eer
is the initial boundary point with fpr = 0 and fnr = 1 − tpr = 1: the two
rates are maximally unequal rather than ≈ 0.5 each, refuting the claim's
rates assertion (eer = (0 + 1)/2 = 0.5 still holds, as their average). -/
theorem const_scores_rates_counterexample :
    ((roc_curve [true, false] [(5 : ℚ), 5]).getD
        (eerIdx [true, false] [(5 : ℚ), 5]) rocDefault).fpr = 0 ∧
      1 - ((roc_curve [true, false] [(5 : ℚ), 5]).getD
        (eerIdx [true, false] [(5 : ℚ), 5]) rocDefault).tpr = 1 ∧
      ((roc_curve [true, false] [(5 : ℚ), 5]).getD
        (eerIdx [true, false] [(5 : ℚ), 5]) rocDefault).fpr ≠
        1 - ((roc_curve [true, false] [(5 : ℚ), 5]).getD
          (eerIdx [true, false] [(5 : ℚ), 5]) rocDefault).tpr ∧
      compute_eer [true, false] [(5 : ℚ), 5] = Except.ok ⟨1 / 2, 5 + 1⟩ := by
  have hroc := @roc_curve_const [true, false] [(5 : ℚ), 5] 5
    (by decide) (by decide) (by decide) (by decide) (by norm_num)
  have hidx := @eerIdx_const [true, false] [(5 : ℚ), 5] 5
    (by decide) (by decide) (by decide) (by decide) (by norm_num)
  have hok := @compute_eer_const [true, false] [(5 : ℚ), 5] 5
    (by decide) (by decide) (by decide) (by decide) (by norm_num)
  rw [hroc, hidx]
  exact ⟨rfl, by norm_num, by norm_num, hok⟩

/-- C7 amended: when every score is identical and both classes are
present, `compute_eer` selects the initial boundary point, at which
fpr = 0 and fnr = 1 − tpr = 1 (not ≈ 0.5 each), and returns their plain
average eer = (0 + 1) / 2 = 0.5 exactly. -/
theorem compute_eer_const_scores_degenerate (y_true : List Bool) (y_score : List ℚ) (s : ℚ)
    (hlen : y_true.length = y_score.length) (hne : y_score ≠ [])
    (hP : positives y_true ≠ 0) (hN : negatives y_true ≠ 0)
    (h : ∀ x ∈ y_score, x = s) :
    ((roc_curve y_true y_score).getD (eerIdx y_true y_score) rocDefault).fpr = 0 ∧
      1 - ((roc_curve y_true y_score).getD (eerIdx y_true y_score) rocDefault).tpr = 1 ∧
      compute_eer y_true y_score = Except.ok ⟨1 / 2, s + 1⟩ := by
  rw [eerIdx_const hlen hne hP hN h, roc_curve_const hlen hne hP hN h]
  exact ⟨rfl, by norm_num, compute_eer_const hlen hne hP hN h⟩

/-- Witness for the amended C7 at y_true = [1, 0], y_score = [7, 7]. -/
theorem compute_eer_const_scores_degenerate_witness :
    ([true, false] : List Bool).length = ([(7 : ℚ), 7] : List ℚ).length ∧
      ([(7 : ℚ), 7] : List ℚ) ≠ [] ∧
      positives [true, false] ≠ 0 ∧ negatives [true, false] ≠ 0 ∧
      (∀ x ∈ ([(7 : ℚ), 7] : List ℚ), x = 7) ∧
      (((roc_curve [true, false] [(7 : ℚ), 7]).getD
          (eerIdx [true, false] [(7 : ℚ), 7]) rocDefault).fpr = 0 ∧
        1 - ((roc_curve [true, false] [(7 : ℚ), 7]).getD
          (eerIdx [true, false] [(7 : ℚ), 7]) rocDefault).tpr = 1 ∧
        compute_eer [true, false] [(7 : ℚ), 7] = Except.ok ⟨1 / 2, 7 + 1⟩) :=
  ⟨by decide, by decide, by decide, by decide, by norm_num,
    compute_eer_const_scores_degenerate [true, false] [(7 : ℚ), 7] 7 (by decide) (by decide)
      (by decide) (by decide) (by norm_num)⟩

/-- C10: on an all-identical-score input with both classes present the
selected ROC point is the initial boundary point (nothing flagged
positive) and the returned threshold is the sentinel maxOf y_score + 1,
which is strictly greater than every score and not an element of
y_score. -/
theorem compute_eer_const_scores_sentinel (y_true : List Bool) (y_score : List ℚ) (s : ℚ)
    (hlen : y_true.length = y_score.length) (hne : y_score ≠ [])
    (hP : positives y_true ≠ 0) (hN : negatives y_true ≠ 0)
    (h : ∀ x ∈ y_score, x = s) :
    ∃ r, compute_eer y_true y_score = Except.ok r ∧
      r.threshold = maxOf y_score + 1 ∧
      (∀ x ∈ y_score, x < r.threshold) ∧ r.threshold ∉ y_score := by
  refine ⟨⟨1 / 2, s + 1⟩, compute_eer_const hlen hne hP hN h, ?_, ?_, ?_⟩
  · rw [maxOf_const hne h]
  · intro x hx
    rw [h x hx]
    norm_num
  · intro hmem
    have := h _ hmem
    norm_num at this

/-- Witness for C10 at y_true = [1, 0], y_score = [5, 5]. -/
theorem compute_eer_const_scores_sentinel_witness :
    ([true, false] : List Bool).length = ([(5 : ℚ), 5] : List ℚ).length ∧
      ([(5 : ℚ), 5] : List ℚ) ≠ [] ∧
      positives [true, false] ≠ 0 ∧ negatives [true, false] ≠ 0 ∧
      (∀ x ∈ ([(5 : ℚ), 5] : List ℚ), x = 5) ∧
      (∃ r, compute_eer [true, false] [(5 : ℚ), 5] = Except.ok r ∧
        r.threshold = maxOf [(5 : ℚ), 5] + 1 ∧
        (∀ x ∈ ([(5 : ℚ), 5] : List ℚ), x < r.threshold) ∧
        r.threshold ∉ ([(5 : ℚ), 5] : List ℚ)) :=
  ⟨by decide, by decide, by decide, by decide, by norm_num,
    compute_eer_const_scores_sentinel [true, false] [(5 : ℚ), 5] 5 (by decide) (by decide)
      (by decide) (by decide) (by norm_num)⟩

/-- Scores of the genuine (label 1) examples, in input order. -/
def genuineScores (y_true : List Bool) (y_score : List ℚ) : List ℚ :=
  ((y_true.zip y_score).filter (fun p => p.1)).map Prod.snd

/-- Scores of the forged (label 0) examples, in input order. -/
def forgedScores (y_true : List Bool) (y_score : List ℚ) : List ℚ :=
  ((y_true.zip y_score).filter (fun p => !p.1)).map Prod.snd

theorem genuineScores_sub {y_true : List Bool} {y_score : List ℚ} {x : ℚ}
    (hx : x ∈ genuineScores y_true y_score) :
    ∃ p ∈ y_true.zip y_score, p.1 = true ∧ p.2 = x := by
  simp only [genuineScores, List.mem_map, List.mem_filter] at hx
  obtain ⟨p, ⟨hp, h1⟩, h2⟩ := hx
  exact ⟨p, hp, h1, h2⟩

theorem forgedScores_sub {y_true : List Bool} {y_score : List ℚ} {x : ℚ}
    (hx : x ∈ forgedScores y_true y_score) :
    ∃ p ∈ y_true.zip y_score, p.1 = false ∧ p.2 = x := by
  simp only [forgedScores, List.mem_map, List.mem_filter] at hx
  obtain ⟨p, ⟨hp, h1⟩, h2⟩ := hx
  exact ⟨p, hp, by simpa using h1, h2⟩

theorem mem_genuineScores_of {y_true : List Bool} {y_score : List ℚ} {p : Bool × ℚ}
    (hp : p ∈ y_true.zip y_score) (h1 : p.1 = true) :
    p.2 ∈ genuineScores y_true y_score := by
  simp only [genuineScores, List.mem_map, List.mem_filter]
  exact ⟨p, ⟨hp, h1⟩, rfl⟩

theorem mem_forgedScores_of {y_true : List Bool} {y_score : List ℚ} {p : Bool × ℚ}
    (hp : p ∈ y_true.zip y_score) (h1 : p.1 = false) :
    p.2 ∈ forgedScores y_true y_score := by
  simp only [forgedScores, List.mem_map, List.mem_filter]
  exact ⟨p, ⟨hp, by simp [h1]⟩, rfl⟩

theorem genuineScores_length {y_true : List Bool} {y_score : List ℚ}
    (hlen : y_true.length = y_score.length) :
    (genuineScores y_true y_score).length = positives y_true := by
  rw [genuineScores, List.length_map, ← List.countP_eq_length_filter,
    countP_zip_fst y_true y_score (fun b => b) hlen]
  rfl

theorem countP_eq_of_imp {α : Type} {l : List α} {p q : α → Bool}
    (himp : ∀ x ∈ l, p x = true → q x = true)
    (heq : l.countP p = l.countP q) : ∀ x ∈ l, q x = true → p x = true := by
  induction l with
  | nil => simp
  | cons a t ih =>
    have himp2 : ∀ x ∈ t, p x = true → q x = true :=
      fun x hx => himp x (List.mem_cons_of_mem a hx)
    have hmono : t.countP p ≤ t.countP q := List.countP_mono_left himp2
    rw [List.countP_cons, List.countP_cons] at heq
    by_cases hpa : p a = true
    · have hqa : q a = true := himp a (by simp) hpa
      have heq2 : t.countP p = t.countP q := by
        simp [hpa, hqa] at heq
        omega
      intro x hx hqx
      rcases List.mem_cons.1 hx with h | h
      · rw [h]
        exact hpa
      · exact ih himp2 heq2 x h hqx
    · by_cases hqa : q a = true
      · exfalso
        simp [hpa, hqa] at heq
        omega
      · have heq2 : t.countP p = t.countP q := by
          simp [hpa, hqa] at heq
          omega
        intro x hx hqx
        rcases List.mem_cons.1 hx with h | h
        · rw [h] at hqx
          exact absurd hqx hqa
        · exact ih himp2 heq2 x h hqx

/-- C8 amended: on a perfectly separable dataset (every genuine score
strictly above every forged score, both classes present) `compute_eer`
returns eer = 0, and the returned threshold is strictly greater than
every forged score and at most every genuine score (on the boundary of
the genuine cluster rather than strictly between the clusters: the
threshold equals the smallest genuine score). -/
theorem compute_eer_separable (y_true : List Bool) (y_score : List ℚ)
    (hlen : y_true.length = y_score.length)
    (hP : positives y_true ≠ 0) (hN : negatives y_true ≠ 0)
    (hsep : ∀ g ∈ genuineScores y_true y_score, ∀ w ∈ forgedScores y_true y_score, w < g) :
    ∃ r, compute_eer y_true y_score = Except.ok r ∧ r.eer = 0 ∧
      (∀ w ∈ forgedScores y_true y_score, w < r.threshold) ∧
      (∀ g ∈ genuineScores y_true y_score, r.threshold ≤ g) := by
  have hNq : ((negatives y_true : ℚ)) ≠ 0 := Nat.cast_ne_zero.2 hN
  have hPq : ((positives y_true : ℚ)) ≠ 0 := Nat.cast_ne_zero.2 hP
  have hgne : genuineScores y_true y_score ≠ [] := by
    intro hc
    have := genuineScores_length hlen
    rw [hc] at this
    exact hP this.symm
  have hm_genuine : minOf (genuineScores y_true y_score) ∈ genuineScores y_true y_score :=
    minOf_mem _ hgne
  obtain ⟨pm, hpm, hpm1, hpm2⟩ := genuineScores_sub hm_genuine
  have hm_score : minOf (genuineScores y_true y_score) ∈ y_score := by
    rw [← hpm2]
    exact (List.of_mem_zip hpm).2
  have hm_thr : minOf (genuineScores y_true y_score) ∈ thresholdList y_score := by
    rw [thresholdList]
    refine List.mem_cons_of_mem _ (List.mem_append_left _ ?_)
    rw [sortedThresholds]
    exact (List.perm_insertionSort _ _).mem_iff.2 (List.mem_dedup.2 hm_score)
  have htp_m : tpCount y_true y_score (minOf (genuineScores y_true y_score)) =
      positives y_true := by
    rw [positives, ← countP_zip_fst y_true y_score (fun b => b) hlen]
    apply List.countP_congr
    intro p hp
    by_cases hp1 : p.1 = true
    · have hmem : p.2 ∈ genuineScores y_true y_score := mem_genuineScores_of hp hp1
      have hle := minOf_le _ _ hmem
      simp [hp1, hle]
    · simp [hp1]
  have hfp_m : fpCount y_true y_score (minOf (genuineScores y_true y_score)) = 0 := by
    apply List.countP_eq_zero.2
    intro p hp
    by_cases hp1 : p.1 = true
    · simp [hp1]
    · have hp1f : p.1 = false := by simpa using hp1
      have hmem : p.2 ∈ forgedScores y_true y_score := mem_forgedScores_of hp hp1f
      have hlt := hsep _ hm_genuine _ hmem
      simp [hp1f, not_le.2 hlt]
  have hpoint_m : pointAt y_true y_score (minOf (genuineScores y_true y_score)) =
      ⟨0, 1, minOf (genuineScores y_true y_score)⟩ := by
    simp [pointAt, htp_m, hfp_m, div_self hPq]
  have hdl_ne : (roc_curve y_true y_score).map pointDiff ≠ [] := by
    simp [roc_curve, thresholdList]
  have h0mem : (0 : ℚ) ∈ (roc_curve y_true y_score).map pointDiff := by
    refine List.mem_map.2 ⟨pointAt y_true y_score (minOf (genuineScores y_true y_score)), ?_, ?_⟩
    · exact List.mem_map_of_mem _ hm_thr
    · rw [hpoint_m]
      norm_num [pointDiff]
  have hmin_le : minOf ((roc_curve y_true y_score).map pointDiff) ≤ 0 := minOf_le _ _ h0mem
  have hmin_ge : 0 ≤ minOf ((roc_curve y_true y_score).map pointDiff) := by
    have hmem := minOf_mem _ hdl_ne
    obtain ⟨p, _, hp2⟩ := List.mem_map.1 hmem
    rw [← hp2]
    exact abs_nonneg _
  have hmin0 : minOf ((roc_curve y_true y_score).map pointDiff) = 0 :=
    le_antisymm hmin_le hmin_ge
  have hsel : pointDiff ((roc_curve y_true y_score).getD (eerIdx y_true y_score) rocDefault)
      = 0 := by
    have h := getD_argminIdx ((roc_curve y_true y_score).map pointDiff) hdl_ne
    rw [hmin0] at h
    have h2 : ((roc_curve y_true y_score).map pointDiff).getD (eerIdx y_true y_score) 0 = 0 := h
    rw [getD_map_point (eerIdx_lt_length y_true y_score)] at h2
    exact h2
  obtain ⟨t, htmem, htq⟩ := (mem_roc_curve_iff y_true y_score _).1 (eerPoint_mem y_true y_score)
  rw [← htq] at hsel
  have hbal : (fpCount y_true y_score t : ℚ) / (negatives y_true : ℚ) =
      1 - (tpCount y_true y_score t : ℚ) / (positives y_true : ℚ) := by
    have := abs_eq_zero.1 hsel
    have h2 := sub_eq_zero.1 this
    simpa [pointAt, pointDiff] using h2
  have hfp0 : fpCount y_true y_score t = 0 := by
    by_contra hfpne
    obtain ⟨p, hp, hpp⟩ := List.countP_pos_iff.1 (Nat.pos_of_ne_zero hfpne)
    simp only [Bool.and_eq_true, Bool.not_eq_true', decide_eq_true_eq] at hpp
    have hwforged : p.2 ∈ forgedScores y_true y_score := mem_forgedScores_of hp hpp.1
    have htp_full : tpCount y_true y_score t = positives y_true := by
      rw [positives, ← countP_zip_fst y_true y_score (fun b => b) hlen]
      apply List.countP_congr
      intro x hx
      by_cases hx1 : x.1 = true
      · have hxg : x.2 ∈ genuineScores y_true y_score := mem_genuineScores_of hx hx1
        have : p.2 < x.2 := hsep _ hxg _ hwforged
        have hle : t ≤ x.2 := le_of_lt (lt_of_le_of_lt hpp.2 this)
        simp [hx1, hle]
      · simp [hx1]
    rw [htp_full, div_self hPq] at hbal
    simp only [sub_self] at hbal
    have : (fpCount y_true y_score t : ℚ) = 0 := by
      field_simp at hbal
      exact_mod_cast hbal
    exact hfpne (by exact_mod_cast this)
  have htpr1 : (tpCount y_true y_score t : ℚ) / (positives y_true : ℚ) = 1 := by
    rw [hfp0] at hbal
    simp only [Nat.cast_zero, zero_div] at hbal
    linarith
  have htpc : tpCount y_true y_score t = positives y_true := by
    have : (tpCount y_true y_score t : ℚ) = (positives y_true : ℚ) := by
      field_simp at htpr1
      exact_mod_cast htpr1
    exact_mod_cast this
  refine ⟨⟨((pointAt y_true y_score t).fpr + (1 - (pointAt y_true y_score t).tpr)) / 2,
    (pointAt y_true y_score t).threshold⟩, ?_, ?_, ?_, ?_⟩
  · rw [compute_eer_ok_point y_true y_score hP hN, htq]
  · simp only [pointAt, htpc, hfp0]
    rw [div_self hPq]
    norm_num
  · intro w hw
    obtain ⟨p, hp, hp1, hp2⟩ := forgedScores_sub hw
    have hthr : (pointAt y_true y_score t).threshold = t := rfl
    rw [hthr]
    by_contra hnot
    have hle : t ≤ w := le_of_not_lt hnot
    have : (y_true.zip y_score).countP (fun q => !q.1 && decide (t ≤ q.2)) ≠ 0 := by
      intro hc
      have := List.countP_eq_zero.1 hc p hp
      rw [hp1, hp2] at this
      simp [hle] at this
    exact this hfp0
  · intro g hg
    obtain ⟨p, hp, hp1, hp2⟩ := genuineScores_sub hg
    have hthr : (pointAt y_true y_score t).threshold = t := rfl
    rw [hthr]
    have hall := countP_eq_of_imp
      (p := fun q : Bool × ℚ => q.1 && decide (t ≤ q.2)) (q := fun q : Bool × ℚ => q.1)
      (l := y_true.zip y_score)
      (fun x _ hx => by
        simp only [Bool.and_eq_true] at hx
        exact hx.1)
      (by
        rw [countP_zip_fst y_true y_score (fun b => b) hlen]
        exact htpc)
    have := hall p hp hp1
    simp only [Bool.and_eq_true, decide_eq_true_eq] at this
    rw [← hp2]
    exact this.2

/-- C8 counterexample: on the spec's own scenario y_true = [1,1,0,0],
y_score = [0.9, 0.8, 0.3, 0.1] the code returns eer = 0 with threshold
0.8, the smallest genuine score itself — not a value strictly between
the largest forged score (0.3) and the smallest genuine score (0.8). -/
theorem separable_threshold_counterexample :
    ∃ r, compute_eer [true, true, false, false]
        [(9 : ℚ)/10, 8/10, 3/10, 1/10] = Except.ok r ∧
      r.eer = 0 ∧ r.threshold = 8/10 ∧
      ¬((3 : ℚ)/10 < r.threshold ∧ r.threshold < (8 : ℚ)/10) := by
  refine ⟨⟨0, 8/10⟩, ?_, rfl, rfl, by norm_num⟩
  norm_num [compute_eer, positives, negatives, roc_curve, thresholdList, sortedThresholds,
    maxOf, minOf, List.insertionSort, List.orderedInsert, List.dedup, List.pwFilter,
    pointAt, tpCount, fpCount, argminIdx, List.countP, List.countP.go,
    List.zip, List.zipWith, List.getD]

/-- Witness for the amended C8 at y_true = [1, 0], y_score = [9, 1]. -/
theorem compute_eer_separable_witness :
    ([true, false] : List Bool).length = ([(9 : ℚ), 1] : List ℚ).length ∧
      positives [true, false] ≠ 0 ∧ negatives [true, false] ≠ 0 ∧
      (∀ g ∈ genuineScores [true, false] [(9 : ℚ), 1],
        ∀ w ∈ forgedScores [true, false] [(9 : ℚ), 1], w < g) ∧
      (∃ r, compute_eer [true, false] [(9 : ℚ), 1] = Except.ok r ∧ r.eer = 0 ∧
        (∀ w ∈ forgedScores [true, false] [(9 : ℚ), 1], w < r.threshold) ∧
        (∀ g ∈ genuineScores [true, false] [(9 : ℚ), 1], r.threshold ≤ g)) :=
  ⟨by decide, by decide, by decide, by decide,
    compute_eer_separable [true, false] [(9 : ℚ), 1] (by decide) (by decide) (by decide)
      (by decide)⟩

theorem roc_thresholds_eq (y_true : List Bool) (y_score : List ℚ) :
    (roc_curve y_true y_score).map ROCPoint.threshold = thresholdList y_score := by
  rw [roc_curve, List.map_map]
  have h : (ROCPoint.threshold ∘ pointAt y_true y_score) = id := rfl
  rw [h, List.map_id]

theorem sortedThresholds_nodup (y_score : List ℚ) : (sortedThresholds y_score).Nodup :=
  (List.perm_insertionSort _ _).nodup_iff.2 y_score.nodup_dedup

theorem mem_sortedThresholds (y_score : List ℚ) (x : ℚ) :
    x ∈ sortedThresholds y_score ↔ x ∈ y_score := by
  rw [sortedThresholds, (List.perm_insertionSort _ _).mem_iff, List.mem_dedup]

theorem sortedThresholds_sorted (y_score : List ℚ) :
    (sortedThresholds y_score).Pairwise (· ≥ ·) :=
  List.sorted_insertionSort _ _

theorem sortedThresholds_strict (y_score : List ℚ) :
    (sortedThresholds y_score).Pairwise (· > ·) := by
  have h := (sortedThresholds_sorted y_score).and (sortedThresholds_nodup y_score)
  exact h.imp (fun hab => lt_of_le_of_ne hab.1.le (Ne.symm hab.2))

theorem thresholdList_strict (y_score : List ℚ) (hne : y_score ≠ []) :
    (thresholdList y_score).Pairwise (· > ·) := by
  have hminmax : minOf y_score ≤ maxOf y_score :=
    le_maxOf y_score _ (minOf_mem y_score hne)
  rw [thresholdList]
  refine List.pairwise_cons.2 ⟨?_, ?_⟩
  · intro b hb
    rcases List.mem_append.1 hb with h | h
    · have hbs : b ∈ y_score := (mem_sortedThresholds y_score b).1 h
      have := le_maxOf y_score b hbs
      linarith
    · simp only [List.mem_singleton] at h
      rw [h]
      linarith
  · refine List.pairwise_append.2 ⟨sortedThresholds_strict y_score, by simp, ?_⟩
    intro a ha b hb
    simp only [List.mem_singleton] at hb
    have has : a ∈ y_score := (mem_sortedThresholds y_score a).1 ha
    have := minOf_le y_score a has
    rw [hb]
    linarith

theorem roc_curve_head (y_true : List Bool) (y_score : List ℚ) :
    (roc_curve y_true y_score).head? = some ⟨0, 0, maxOf y_score + 1⟩ := by
  have hp : pointAt y_true y_score (maxOf y_score + 1) = ⟨0, 0, maxOf y_score + 1⟩ :=
    pointAt_top (fun x hx => by
      have := le_maxOf y_score x hx
      linarith)
  rw [roc_curve, thresholdList]
  simp [hp]

theorem roc_curve_last (y_true : List Bool) (y_score : List ℚ)
    (hlen : y_true.length = y_score.length)
    (hP : positives y_true ≠ 0) (hN : negatives y_true ≠ 0) :
    (roc_curve y_true y_score).getLast? = some ⟨1, 1, minOf y_score - 1⟩ := by
  have hp : pointAt y_true y_score (minOf y_score - 1) = ⟨1, 1, minOf y_score - 1⟩ :=
    pointAt_bot hlen hP hN (fun x hx => by
      have := minOf_le y_score x hx
      linarith)
  rw [roc_curve, thresholdList, List.map_cons, List.map_append, List.map_singleton, hp,
    ← List.cons_append]
  exact List.getLast?_concat _

theorem roc_curve_fpr_mono (y_true : List Bool) (y_score : List ℚ)
    (hne : y_score ≠ []) (hN : negatives y_true ≠ 0) :
    ((roc_curve y_true y_score).map ROCPoint.fpr).Pairwise (· ≤ ·) := by
  rw [roc_curve, List.map_map]
  refine List.Pairwise.map _ ?_ (thresholdList_strict y_score hne)
  intro a b hab
  have hc := fpCount_mono y_true y_score (le_of_lt hab)
  have hNpos : (0 : ℚ) < (negatives y_true : ℚ) := by
    exact_mod_cast Nat.pos_of_ne_zero hN
  show (fpCount y_true y_score a : ℚ) / (negatives y_true : ℚ) ≤
    (fpCount y_true y_score b : ℚ) / (negatives y_true : ℚ)
  exact (div_le_div_iff_of_pos_right hNpos).2 (by exact_mod_cast hc)

theorem roc_curve_tpr_mono (y_true : List Bool) (y_score : List ℚ)
    (hne : y_score ≠ []) (hP : positives y_true ≠ 0) :
    ((roc_curve y_true y_score).map ROCPoint.tpr).Pairwise (· ≤ ·) := by
  rw [roc_curve, List.map_map]
  refine List.Pairwise.map _ ?_ (thresholdList_strict y_score hne)
  intro a b hab
  have hc := tpCount_mono y_true y_score (le_of_lt hab)
  have hPpos : (0 : ℚ) < (positives y_true : ℚ) := by
    exact_mod_cast Nat.pos_of_ne_zero hP
  show (tpCount y_true y_score a : ℚ) / (positives y_true : ℚ) ≤
    (tpCount y_true y_score b : ℚ) / (positives y_true : ℚ)
  exact (div_le_div_iff_of_pos_right hPpos).2 (by exact_mod_cast hc)

/-- C2: the ROC curve built inside `compute_eer` consists of one point per
candidate threshold, where the candidate thresholds are exactly the
distinct values of y_score plus one boundary threshold above the maximum
score and one below the minimum, in strictly descending order; the point
sequence starts at (fpr, tpr) = (0, 0), ends at (1, 1), and both rates
are non-decreasing as the threshold decreases. -/
theorem roc_curve_structure (y_true : List Bool) (y_score : List ℚ)
    (hlen : y_true.length = y_score.length) (hne : y_score ≠ [])
    (hP : positives y_true ≠ 0) (hN : negatives y_true ≠ 0) :
    (roc_curve y_true y_score).map ROCPoint.threshold =
        (maxOf y_score + 1) :: (sortedThresholds y_score ++ [minOf y_score - 1]) ∧
      (sortedThresholds y_score).Nodup ∧
      (∀ x, x ∈ sortedThresholds y_score ↔ x ∈ y_score) ∧
      (∀ x ∈ y_score, x < maxOf y_score + 1) ∧
      (∀ x ∈ y_score, minOf y_score - 1 < x) ∧
      ((roc_curve y_true y_score).map ROCPoint.threshold).Pairwise (· > ·) ∧
      (roc_curve y_true y_score).head? = some ⟨0, 0, maxOf y_score + 1⟩ ∧
      (roc_curve y_true y_score).getLast? = some ⟨1, 1, minOf y_score - 1⟩ ∧
      ((roc_curve y_true y_score).map ROCPoint.fpr).Pairwise (· ≤ ·) ∧
      ((roc_curve y_true y_score).map ROCPoint.tpr).Pairwise (· ≤ ·) := by
  refine ⟨roc_thresholds_eq y_true y_score, sortedThresholds_nodup y_score,
    mem_sortedThresholds y_score, ?_, ?_, ?_,
    roc_curve_head y_true y_score,
    roc_curve_last y_true y_score hlen hP hN,
    roc_curve_fpr_mono y_true y_score hne hN,
    roc_curve_tpr_mono y_true y_score hne hP⟩
  · intro x hx
    have := le_maxOf y_score x hx
    linarith
  · intro x hx
    have := minOf_le y_score x hx
    linarith
  · rw [roc_thresholds_eq y_true y_score]
    exact thresholdList_strict y_score hne

/-- Witness for C2 at y_true = [1, 0], y_score = [1, 0]. -/
theorem roc_curve_structure_witness :
    ([true, false] : List Bool).length = ([(1 : ℚ), 0] : List ℚ).length ∧
      ([(1 : ℚ), 0] : List ℚ) ≠ [] ∧
      positives [true, false] ≠ 0 ∧ negatives [true, false] ≠ 0 ∧
      ((roc_curve [true, false] [(1 : ℚ), 0]).map ROCPoint.threshold =
          (maxOf [(1 : ℚ), 0] + 1) ::
            (sortedThresholds [(1 : ℚ), 0] ++ [minOf [(1 : ℚ), 0] - 1]) ∧
        (sortedThresholds [(1 : ℚ), 0]).Nodup ∧
        (∀ x, x ∈ sortedThresholds [(1 : ℚ), 0] ↔ x ∈ ([(1 : ℚ), 0] : List ℚ)) ∧
        (∀ x ∈ ([(1 : ℚ), 0] : List ℚ), x < maxOf [(1 : ℚ), 0] + 1) ∧
        (∀ x ∈ ([(1 : ℚ), 0] : List ℚ), minOf [(1 : ℚ), 0] - 1 < x) ∧
        ((roc_curve [true, false] [(1 : ℚ), 0]).map ROCPoint.threshold).Pairwise (· > ·) ∧
        (roc_curve [true, false] [(1 : ℚ), 0]).head? =
          some ⟨0, 0, maxOf [(1 : ℚ), 0] + 1⟩ ∧
        (roc_curve [true, false] [(1 : ℚ), 0]).getLast? =
          some ⟨1, 1, minOf [(1 : ℚ), 0] - 1⟩ ∧
        ((roc_curve [true, false] [(1 : ℚ), 0]).map ROCPoint.fpr).Pairwise (· ≤ ·) ∧
        ((roc_curve [true, false] [(1 : ℚ), 0]).map ROCPoint.tpr).Pairwise (· ≤ ·)) :=
  ⟨by decide, by decide, by decide, by decide,
    roc_curve_structure [true, false] [(1 : ℚ), 0] (by decide) (by decide) (by decide)
      (by decide)⟩

theorem maxOf_map (φ : ℚ → ℚ) (hmono : Monotone φ) (l : List ℚ) (hne : l ≠ []) :
    maxOf (l.map φ) = φ (maxOf l) := by
  induction l with
  | nil => exact absurd rfl hne
  | cons a t ih =>
    cases t with
    | nil => simp [maxOf]
    | cons b t2 =>
      have h := ih (by simp)
      show max (φ a) (maxOf (List.map φ (b :: t2))) = φ (max a (maxOf (b :: t2)))
      rw [h, hmono.map_max]

theorem minOf_map (φ : ℚ → ℚ) (hmono : Monotone φ) (l : List ℚ) (hne : l ≠ []) :
    minOf (l.map φ) = φ (minOf l) := by
  induction l with
  | nil => exact absurd rfl hne
  | cons a t ih =>
    cases t with
    | nil => simp [minOf]
    | cons b t2 =>
      have h := ih (by simp)
      show min (φ a) (minOf (List.map φ (b :: t2))) = φ (min a (minOf (b :: t2)))
      rw [h, hmono.map_min]

theorem fpCount_map (y_true : List Bool) (y_score : List ℚ) (φ : ℚ → ℚ)
    (hmono : StrictMono φ) (t : ℚ) :
    fpCount y_true (y_score.map φ) (φ t) = fpCount y_true y_score t := by
  rw [fpCount, fpCount, List.zip_map_right, List.countP_map]
  apply List.countP_congr
  intro p _
  simp only [Function.comp_apply, Prod.map_fst, Prod.map_snd, id_eq,
    Bool.and_eq_true, decide_eq_true_eq, hmono.le_iff_le]

theorem tpCount_map (y_true : List Bool) (y_score : List ℚ) (φ : ℚ → ℚ)
    (hmono : StrictMono φ) (t : ℚ) :
    tpCount y_true (y_score.map φ) (φ t) = tpCount y_true y_score t := by
  rw [tpCount, tpCount, List.zip_map_right, List.countP_map]
  apply List.countP_congr
  intro p _
  simp only [Function.comp_apply, Prod.map_fst, Prod.map_snd, id_eq,
    Bool.and_eq_true, decide_eq_true_eq, hmono.le_iff_le]

theorem sortedThresholds_map (y_score : List ℚ) (φ : ℚ → ℚ) (hmono : StrictMono φ) :
    sortedThresholds (y_score.map φ) = (sortedThresholds y_score).map φ := by
  rw [sortedThresholds, sortedThresholds,
    List.dedup_map_of_injective hmono.injective]
  exact (List.map_insertionSort (· ≥ ·) (· ≥ ·) φ y_score.dedup
    (fun a _ b _ => hmono.le_iff_le.symm)).symm

theorem roc_map_eq (y_true : List Bool) (y_score : List ℚ) (G : ℚ → ℚ → ℚ) (φ : ℚ → ℚ)
    (hmono : StrictMono φ) (hlen : y_true.length = y_score.length) (hne : y_score ≠ []) :
    (roc_curve y_true (y_score.map φ)).map (fun p => G p.fpr p.tpr) =
      (roc_curve y_true y_score).map (fun p => G p.fpr p.tpr) := by
  have hlen2 : y_true.length = (y_score.map φ).length := by simpa using hlen
  have hmax : maxOf (y_score.map φ) = φ (maxOf y_score) :=
    maxOf_map φ hmono.monotone y_score hne
  have hmin : minOf (y_score.map φ) = φ (minOf y_score) :=
    minOf_map φ hmono.monotone y_score hne
  have hsort := sortedThresholds_map y_score φ hmono
  rw [roc_curve, roc_curve, thresholdList, thresholdList, hmax, hmin, hsort]
  simp only [List.map_cons, List.map_append, List.map_singleton, List.map_map]
  congr 1
  · -- boundary point above the maximum: nothing flagged on either side
    have h1 : fpCount y_true (y_score.map φ) (φ (maxOf y_score) + 1) = 0 :=
      fpCount_eq_zero _ _ (fun x hx => by
        obtain ⟨z, hz, rfl⟩ := List.mem_map.1 hx
        have := hmono.monotone (le_maxOf y_score z hz)
        linarith)
    have h2 : tpCount y_true (y_score.map φ) (φ (maxOf y_score) + 1) = 0 :=
      tpCount_eq_zero _ _ (fun x hx => by
        obtain ⟨z, hz, rfl⟩ := List.mem_map.1 hx
        have := hmono.monotone (le_maxOf y_score z hz)
        linarith)
    have h3 : fpCount y_true y_score (maxOf y_score + 1) = 0 :=
      fpCount_eq_zero _ _ (fun x hx => by
        have := le_maxOf y_score x hx
        linarith)
    have h4 : tpCount y_true y_score (maxOf y_score + 1) = 0 :=
      tpCount_eq_zero _ _ (fun x hx => by
        have := le_maxOf y_score x hx
        linarith)
    simp [Function.comp, pointAt, h1, h2, h3, h4]
  congr 1
  · -- interior thresholds: counts are invariant under the transform
    apply List.map_congr_left
    intro a _
    show G ((pointAt y_true (y_score.map φ) (φ a)).fpr)
        ((pointAt y_true (y_score.map φ) (φ a)).tpr) =
      G ((pointAt y_true y_score a).fpr) ((pointAt y_true y_score a).tpr)
    simp [pointAt, fpCount_map y_true y_score φ hmono, tpCount_map y_true y_score φ hmono]
  · -- boundary point below the minimum: everything flagged on either side
    have h1 : fpCount y_true (y_score.map φ) (φ (minOf y_score) - 1) = negatives y_true :=
      fpCount_eq_negatives _ _ hlen2 (fun x hx => by
        obtain ⟨z, hz, rfl⟩ := List.mem_map.1 hx
        have := hmono.monotone (minOf_le y_score z hz)
        linarith)
    have h2 : tpCount y_true (y_score.map φ) (φ (minOf y_score) - 1) = positives y_true :=
      tpCount_eq_positives _ _ hlen2 (fun x hx => by
        obtain ⟨z, hz, rfl⟩ := List.mem_map.1 hx
        have := hmono.monotone (minOf_le y_score z hz)
        linarith)
    have h3 : fpCount y_true y_score (minOf y_score - 1) = negatives y_true :=
      fpCount_eq_negatives _ _ hlen (fun x hx => by
        have := minOf_le y_score x hx
        linarith)
    have h4 : tpCount y_true y_score (minOf y_score - 1) = positives y_true :=
      tpCount_eq_positives _ _ hlen (fun x hx => by
        have := minOf_le y_score x hx
        linarith)
    simp [Function.comp, pointAt, h1, h2, h3, h4]

/-- Projection of the eer component of an evaluation outcome. -/
def eerOf : Except EvalError EERResult → Option ℚ
  | Except.ok r => some r.eer
  | Except.error _ => none

/-- C9: the eer reported by `compute_eer` is invariant under any strictly
monotonic increasing transform applied elementwise to the scores (only
the reported threshold may change correspondingly). -/
theorem compute_eer_strictMono_invariant (y_true : List Bool) (y_score : List ℚ)
    (φ : ℚ → ℚ) (hmono : StrictMono φ)
    (hlen : y_true.length = y_score.length) (hne : y_score ≠ []) :
    eerOf (compute_eer y_true (y_score.map φ)) = eerOf (compute_eer y_true y_score) := by
  by_cases hc : positives y_true = 0 ∨ negatives y_true = 0
  · simp [compute_eer, hc, eerOf]
  · push_neg at hc
    obtain ⟨hP, hN⟩ := hc
    have hfpr : (roc_curve y_true (y_score.map φ)).map ROCPoint.fpr =
        (roc_curve y_true y_score).map ROCPoint.fpr :=
      roc_map_eq y_true y_score (fun a _ => a) φ hmono hlen hne
    have htpr : (roc_curve y_true (y_score.map φ)).map ROCPoint.tpr =
        (roc_curve y_true y_score).map ROCPoint.tpr :=
      roc_map_eq y_true y_score (fun _ b => b) φ hmono hlen hne
    have hdiff : (roc_curve y_true (y_score.map φ)).map pointDiff =
        (roc_curve y_true y_score).map pointDiff :=
      roc_map_eq y_true y_score (fun a b => |a - (1 - b)|) φ hmono hlen hne
    have hidx : eerIdx y_true (y_score.map φ) = eerIdx y_true y_score := by
      rw [eerIdx, eerIdx, hdiff]
    rw [compute_eer_ok_form y_true (y_score.map φ) hP hN,
      compute_eer_ok_form y_true y_score hP hN]
    simp only [eerOf, hidx, hfpr, htpr]

/-- Witness for C9 at y_true = [1, 0], y_score = [0, 1], transform x ↦ 2x. -/
theorem compute_eer_strictMono_invariant_witness :
    StrictMono (fun x : ℚ => 2 * x) ∧
      ([true, false] : List Bool).length = ([(0 : ℚ), 1] : List ℚ).length ∧
      ([(0 : ℚ), 1] : List ℚ) ≠ [] ∧
      eerOf (compute_eer [true, false] (([(0 : ℚ), 1] : List ℚ).map (fun x => 2 * x))) =
        eerOf (compute_eer [true, false] [(0 : ℚ), 1]) :=
  ⟨fun a b h => by simpa using (mul_lt_mul_left (show (0 : ℚ) < 2 by norm_num)).2 h,
    by decide, by decide,
    compute_eer_strictMono_invariant [true, false] [(0 : ℚ), 1] (fun x => 2 * x)
      (fun a b h => by simpa using (mul_lt_mul_left (show (0 : ℚ) < 2 by norm_num)).2 h)
      (by decide) (by decide)⟩

/-- External classifier as the harness loop of notebook 3 cell 14 sees it:
the classifiers themselves (RandomForest, KNN, ...) are library black
boxes, so a classifier is abstracted by its post-fit outputs on the fixed
test split — its hard predictions and, when the model supports
probability scoring, its positive-class scores.  `predict_proba = none`
models a classifier lacking the predict_proba attribute, on which the
Python attribute access raises. -/
structure Classifier where
  predict : List Bool
  predict_proba : Option (List ℚ)
deriving DecidableEq, Repr

/-- Report row appended by the loop of notebook 3 cell 14.  The source
dict has keys Model, Accuracy, Precision, Recall and F1 only; the
optional eer fields model the absence of any EER entry in the dict
(`none` = no such key was ever written). -/
structure ModelReport where
  model : String
  accuracy : ℚ
  precision : ℚ
  recallMetric : ℚ
  f1 : ℚ
  eer : Option ℚ
  eer_threshold : Option ℚ
deriving DecidableEq, Repr

/-- True positives of hard predictions (label 1, predicted 1). -/
def tpPred (y_true y_pred : List Bool) : Nat :=
  (y_true.zip y_pred).countP (fun p => p.1 && p.2)

/-- False positives of hard predictions (label 0, predicted 1). -/
def fpPred (y_true y_pred : List Bool) : Nat :=
  (y_true.zip y_pred).countP (fun p => !p.1 && p.2)

/-- False negatives of hard predictions (label 1, predicted 0). -/
def fnPred (y_true y_pred : List Bool) : Nat :=
  (y_true.zip y_pred).countP (fun p => p.1 && !p.2)

/-- Modelled from the spec: the library metric accuracy_score (source not
in this repository) — fraction of matches. -/
def accuracy_score (y_true y_pred : List Bool) : ℚ :=
  ((y_true.zip y_pred).countP (fun p => p.1 == p.2) : ℚ) / (y_true.length : ℚ)

/-- Modelled from the spec: the library metric precision_score (source
not in this repository) — TP/(TP+FP), 0 when the denominator is 0. -/
def precision_score (y_true y_pred : List Bool) : ℚ :=
  if tpPred y_true y_pred + fpPred y_true y_pred = 0 then 0
  else (tpPred y_true y_pred : ℚ) / ((tpPred y_true y_pred + fpPred y_true y_pred : Nat) : ℚ)

/-- Modelled from the spec: the library metric recall_score (source not
in this repository) — TP/(TP+FN), 0 when the denominator is 0. -/
def recall_score (y_true y_pred : List Bool) : ℚ :=
  if tpPred y_true y_pred + fnPred y_true y_pred = 0 then 0
  else (tpPred y_true y_pred : ℚ) / ((tpPred y_true y_pred + fnPred y_true y_pred : Nat) : ℚ)

/-- Modelled from the spec: the library metric f1_score (source not in
this repository) — harmonic mean of precision and recall, 0 when both
are 0. -/
def f1_score (y_true y_pred : List Bool) : ℚ :=
  if precision_score y_true y_pred + recall_score y_true y_pred = 0 then 0
  else 2 * precision_score y_true y_pred * recall_score y_true y_pred /
    (precision_score y_true y_pred + recall_score y_true y_pred)

/-- Embedding of the evaluation loop of notebook 3 cell 14: for each
registered model in insertion order, fit, predict hard labels, access
predict_proba, compute accuracy/precision/recall/f1 and append one report
row.  The loop has no try/except: the first classifier lacking
predict_proba raises an AttributeError that aborts the remaining
iterations, which is modelled by the `Option EvalError` component — the
reports accumulated before the failing model, paired with the unhandled
error (`none` when the loop ran to completion).  No EER is computed or
stored inside the loop. -/
def evaluate_all : List (String × Classifier) → List Bool → List ModelReport × Option EvalError
  | [], _ => ([], none)
  | (nm, m) :: rest, y_test =>
    match m.predict_proba with
    | none => ([], some EvalError.MissingPredictProba)
    | some _ =>
      let rep : ModelReport :=
        ⟨nm, accuracy_score y_test m.predict, precision_score y_test m.predict,
          recall_score y_test m.predict, f1_score y_test m.predict, none, none⟩
      let r := evaluate_all rest y_test
      (rep :: r.1, r.2)

/-- Embedding of notebook 3 cell 16: after the loop, the notebook calls
compute_eer exactly once, on the positive-class scores of the literal
registry entry RandomForest, printing the result without touching any
report row. -/
def randomForest_eer (models : List (String × Classifier)) (y_test : List Bool) :
    Option (Except EvalError EERResult) :=
  (List.lookup ("RandomForest") models).bind
    (fun m => m.predict_proba.map (fun pr => compute_eer y_test pr))

/-- C4 counterexample: with a three-model registry whose middle
classifier lacks predict_proba, the loop raises an unhandled error (the
error component is not none) and produces no report for the model
registered after the unsupported one, contradicting the claimed
partial-failure policy. -/
theorem evaluate_all_aborts_counterexample :
    (evaluate_all
        [("A", ⟨[true, false], some [(1 : ℚ), 0]⟩),
          ("B", ⟨[true, false], none⟩),
          ("C", ⟨[true, false], some [(1 : ℚ), 0]⟩)] [true, false]).2 ≠ none ∧
      "C" ∉ ((evaluate_all
        [("A", ⟨[true, false], some [(1 : ℚ), 0]⟩),
          ("B", ⟨[true, false], none⟩),
          ("C", ⟨[true, false], some [(1 : ℚ), 0]⟩)] [true, false]).1.map
          ModelReport.model) := by
  constructor
  · simp [evaluate_all]
  · simp [evaluate_all]

/-- C4 amended: when one registered classifier lacks predict_proba, the
loop evaluates the models registered before it normally, then aborts with
an unhandled error at the unsupported model: the error component is set,
no failure marker is recorded per model, and no model after the
unsupported one is evaluated (the reports are exactly those of the
preceding models). -/
theorem evaluate_all_aborts_at_first_unsupported (pre : List (String × Classifier))
    (nm : String) (bad : Classifier) (post : List (String × Classifier))
    (y_test : List Bool)
    (hpre : ∀ q ∈ pre, (Prod.snd q).predict_proba ≠ none)
    (hbad : bad.predict_proba = none) :
    (evaluate_all (pre ++ (nm, bad) :: post) y_test).2 =
        some EvalError.MissingPredictProba ∧
      (evaluate_all (pre ++ (nm, bad) :: post) y_test).1.map ModelReport.model =
        pre.map Prod.fst := by
  induction pre with
  | nil =>
    simp only [List.nil_append, List.map_nil]
    rw [evaluate_all, hbad]
    exact ⟨rfl, rfl⟩
  | cons q pre2 ih =>
    obtain ⟨n0, c0⟩ := q
    have h0 : c0.predict_proba ≠ none := hpre (n0, c0) (by simp)
    obtain ⟨pr, hpr⟩ := Option.ne_none_iff_exists'.1 h0
    have ih2 := ih (fun x hx => hpre x (List.mem_cons_of_mem _ hx))
    rw [List.cons_append, evaluate_all, hpr]
    simp only [List.map_cons]
    exact ⟨ih2.1, by rw [ih2.2]⟩

/-- Witness for the amended C4: registry A (supported), B (unsupported),
C (supported). -/
theorem evaluate_all_aborts_at_first_unsupported_witness :
    (∀ q ∈ [("A", (⟨[true, false], some [(1 : ℚ), 0]⟩ : Classifier))],
        (Prod.snd q).predict_proba ≠ none) ∧
      (⟨[true, false], none⟩ : Classifier).predict_proba = none ∧
      ((evaluate_all ([("A", (⟨[true, false], some [(1 : ℚ), 0]⟩ : Classifier))] ++
          ("B", (⟨[true, false], none⟩ : Classifier)) ::
            [("C", (⟨[true, false], some [(1 : ℚ), 0]⟩ : Classifier))]) [true, false]).2 =
          some EvalError.MissingPredictProba ∧
        (evaluate_all ([("A", (⟨[true, false], some [(1 : ℚ), 0]⟩ : Classifier))] ++
          ("B", (⟨[true, false], none⟩ : Classifier)) ::
            [("C", (⟨[true, false], some [(1 : ℚ), 0]⟩ : Classifier))]) [true, false]).1.map
            ModelReport.model =
          [("A", (⟨[true, false], some [(1 : ℚ), 0]⟩ : Classifier))].map Prod.fst) :=
  ⟨by simp, rfl,
    evaluate_all_aborts_at_first_unsupported
      [("A", ⟨[true, false], some [(1 : ℚ), 0]⟩)] "B" ⟨[true, false], none⟩
      [("C", ⟨[true, false], some [(1 : ℚ), 0]⟩)] [true, false] (by simp) rfl⟩

/-- C5 counterexample: running the loop on the notebook's two-model
registry produces one report per model, but no report contains an eer or
eer_threshold entry (the loop never calls compute_eer), contradicting the
claim that every assembled ModelReport contains eer and eer_threshold
obtained from compute_eer. -/
theorem reports_lack_eer_counterexample :
    (evaluate_all [("RandomForest", ⟨[true, false], some [(1 : ℚ), 0]⟩),
        ("KNN", ⟨[true, false], some [(1 : ℚ), 0]⟩)] [true, false]).1.map
        ModelReport.model = ["RandomForest", "KNN"] ∧
      (evaluate_all [("RandomForest", ⟨[true, false], some [(1 : ℚ), 0]⟩),
        ("KNN", ⟨[true, false], some [(1 : ℚ), 0]⟩)] [true, false]).1.map
        ModelReport.eer = [none, none] ∧
      (evaluate_all [("RandomForest", ⟨[true, false], some [(1 : ℚ), 0]⟩),
        ("KNN", ⟨[true, false], some [(1 : ℚ), 0]⟩)] [true, false]).1.map
        ModelReport.eer_threshold = [none, none] := by
  refine ⟨?_, ?_, ?_⟩ <;> simp [evaluate_all]

/-- C5 amended: when every registered classifier supports probability
scoring, the loop produces exactly one report per model, in registration
order (so names are free of duplicates whenever the registry names are),
each holding the four classification metrics of that model's predictions
and no EER data at all; compute_eer is invoked only once, after the loop,
on the scores of the literal RandomForest registry entry. -/
theorem evaluate_all_reports (models : List (String × Classifier)) (y_test : List Bool)
    (h : ∀ q ∈ models, (Prod.snd q).predict_proba ≠ none) :
    evaluate_all models y_test =
        (models.map (fun q =>
          (⟨q.1, accuracy_score y_test q.2.predict, precision_score y_test q.2.predict,
            recall_score y_test q.2.predict, f1_score y_test q.2.predict, none, none⟩ :
            ModelReport)), none) ∧
      (evaluate_all models y_test).1.map ModelReport.model = models.map Prod.fst ∧
      (∀ r ∈ (evaluate_all models y_test).1, r.eer = none ∧ r.eer_threshold = none) ∧
      ((models.map Prod.fst).Nodup →
        ((evaluate_all models y_test).1.map ModelReport.model).Nodup) := by
  have heq : evaluate_all models y_test =
      (models.map (fun q =>
        (⟨q.1, accuracy_score y_test q.2.predict, precision_score y_test q.2.predict,
          recall_score y_test q.2.predict, f1_score y_test q.2.predict, none, none⟩ :
          ModelReport)), none) := by
    induction models with
    | nil => rfl
    | cons q rest ih =>
      obtain ⟨n0, c0⟩ := q
      have h0 : c0.predict_proba ≠ none := h (n0, c0) (by simp)
      obtain ⟨pr, hpr⟩ := Option.ne_none_iff_exists'.1 h0
      have ih2 := ih (fun x hx => h x (List.mem_cons_of_mem _ hx))
      simp only [evaluate_all, hpr, List.map_cons]
      rw [ih2]
  have hmodel : (evaluate_all models y_test).1.map ModelReport.model =
      models.map Prod.fst := by
    rw [heq, List.map_map]
    rfl
  refine ⟨heq, hmodel, ?_, ?_⟩
  · intro r hr
    rw [heq] at hr
    simp only [List.mem_map] at hr
    obtain ⟨q, _, rfl⟩ := hr
    exact ⟨rfl, rfl⟩
  · intro hnd
    rw [hmodel]
    exact hnd

/-- Witness for the amended C5 on the notebook's registry names. -/
theorem evaluate_all_reports_witness :
    (∀ q ∈ [("RandomForest", (⟨[true, false], some [(1 : ℚ), 0]⟩ : Classifier)),
        ("KNN", (⟨[true, false], some [(1 : ℚ), 0]⟩ : Classifier))],
      (Prod.snd q).predict_proba ≠ none) ∧
      (evaluate_all [("RandomForest", (⟨[true, false], some [(1 : ℚ), 0]⟩ : Classifier)),
          ("KNN", (⟨[true, false], some [(1 : ℚ), 0]⟩ : Classifier))] [true, false] =
        ([("RandomForest", (⟨[true, false], some [(1 : ℚ), 0]⟩ : Classifier)),
          ("KNN", (⟨[true, false], some [(1 : ℚ), 0]⟩ : Classifier))].map (fun q =>
          (⟨q.1, accuracy_score [true, false] q.2.predict,
            precision_score [true, false] q.2.predict,
            recall_score [true, false] q.2.predict,
            f1_score [true, false] q.2.predict, none, none⟩ : ModelReport)), none) ∧
        (evaluate_all [("RandomForest", (⟨[true, false], some [(1 : ℚ), 0]⟩ : Classifier)),
          ("KNN", (⟨[true, false], some [(1 : ℚ), 0]⟩ : Classifier))] [true, false]).1.map
            ModelReport.model =
          [("RandomForest", (⟨[true, false], some [(1 : ℚ), 0]⟩ : Classifier)),
            ("KNN", (⟨[true, false], some [(1 : ℚ), 0]⟩ : Classifier))].map Prod.fst ∧
        (∀ r ∈ (evaluate_all [("RandomForest", (⟨[true, false], some [(1 : ℚ), 0]⟩ : Classifier)),
          ("KNN", (⟨[true, false], some [(1 : ℚ), 0]⟩ : Classifier))] [true, false]).1,
          r.eer = none ∧ r.eer_threshold = none) ∧
        (([("RandomForest", (⟨[true, false], some [(1 : ℚ), 0]⟩ : Classifier)),
            ("KNN", (⟨[true, false], some [(1 : ℚ), 0]⟩ : Classifier))].map Prod.fst).Nodup →
          ((evaluate_all [("RandomForest", (⟨[true, false], some [(1 : ℚ), 0]⟩ : Classifier)),
            ("KNN", (⟨[true, false], some [(1 : ℚ), 0]⟩ : Classifier))] [true, false]).1.map
              ModelReport.model).Nodup)) :=
  ⟨by simp,
    evaluate_all_reports
      [("RandomForest", ⟨[true, false], some [(1 : ℚ), 0]⟩),
        ("KNN", ⟨[true, false], some [(1 : ℚ), 0]⟩)] [true, false] (by simp)⟩
